import Mathlib

/-!
Verification of the queue operations of package peel (QAdd / QGet / QAck)
against a model of the declarative query-plan language they are built on.

The plan-building code of the three operations is embedded directly from
src/peel/peel.go.  The plan interpreter itself lives in the core package,
which is not part of the analysed sources; its semantics (selectors, add-to,
remove-from, conditional break, accumulator threading) are modelled from the
specification and carry a doc comment starting with "Modelled from the spec".
-/

namespace Peel

/-- Timestamp/score values (core.TS): time-derived numeric values. -/
abbrev TS := Nat

/-- Event identifiers (core.ID): monotonically increasing, time-derived, and
therefore usable directly as the event's natural score. -/
abbrev ID := Nat

/-- Modelled from the spec: an event collection's contents — "a mapping from
Event ID to a numeric score, kept in score order".  The physical sorted set
lives in the backing store (redis), which is not part of the sources; the
contents are modelled as an association list of (id, score) pairs and every
ordered query as an arg-min / arg-max over it. -/
abbrev ZSet := List (ID × TS)

/-- Adding an id that is already a member replaces its score (sorted-set add
semantics). -/
def ZSet.add (z : ZSet) (i : ID) (sc : TS) : ZSet :=
  (i, sc) :: z.filter (fun p => p.1 != i)

/-- Remove an id (and any score stored for it) from the collection. -/
def ZSet.remove (z : ZSet) (i : ID) : ZSet :=
  z.filter (fun p => p.1 != i)

/-- Score stored for an id, if it is a member. -/
def ZSet.scoreOf (z : ZSet) (i : ID) : Option TS :=
  (z.find? (fun p => p.1 == i)).map (fun p => p.2)

/-- First element of the list minimising `f`, if the list is non-empty. -/
def minBy {α : Type} (f : α → Nat) : List α → Option α
  | [] => none
  | x :: xs =>
    match minBy f xs with
    | none => some x
    | some y => if f x ≤ f y then some x else some y

/-- First element of the list maximising `f`, if the list is non-empty. -/
def maxBy {α : Type} (f : α → Nat) : List α → Option α
  | [] => none
  | x :: xs =>
    match maxBy f xs with
    | none => some x
    | some y => if f y ≤ f x then some x else some y

/-- Event-collection identity (core.EventSet as produced by the package-peel
helpers queueAvailable, queueInProgressByID, queueInProgressByAck, queueRedo
and queueDone): a role scoped to a queue and, for the per-consumer-group
roles, to a consumer group. -/
inductive EventSet where
  | available (queue : String)
  | inProgressById (queue group : String)
  | inProgressByAck (queue group : String)
  | redo (queue group : String)
  | done (queue group : String)
deriving DecidableEq

def queueAvailable (q : String) : EventSet := .available q

def queueInProgressByID (q g : String) : EventSet := .inProgressById q g

def queueInProgressByAck (q g : String) : EventSet := .inProgressByAck q g

def queueRedo (q g : String) : EventSet := .redo q g

def queueDone (q g : String) : EventSet := .done q g

/-- Modelled from the spec: the full collection state of the backing store —
one score-ordered collection per EventSet identity, created implicitly and
logically empty until first written. -/
abbrev Sets := EventSet → ZSet

/-- Modelled from the spec: core.QueryEventRangeSelect — a score-range select
with optional exclusive bounds, `0` meaning unbounded on that side, optional
descending order (`Reverse`), and a lower bound optionally taken from the
minimum score currently in the accumulator (`MinFromInput`).  Every range
select built by this repository uses `Limit: 1`, which the model hard-codes
by returning at most one member. -/
structure QueryEventRangeSelect where
  Min : TS := 0
  MinExcl : Bool := false
  Max : TS := 0
  MinFromInput : Bool := false
  Reverse : Bool := false
deriving DecidableEq

/-- Score-range membership; `mx = 0` is unbounded above. -/
def inRange (mn : TS) (mnExcl : Bool) (mx : TS) (sc : TS) : Bool :=
  (if mnExcl then decide (mn < sc) else decide (mn ≤ sc)) &&
    (decide (mx = 0) || decide (sc ≤ mx))

/-- Minimum id (= minimum natural score) currently in the accumulator. -/
def minScore? (acc : List ID) : Option TS :=
  minBy (fun i => i) acc

/-- Modelled from the spec: evaluate a range select against a collection.
When `MinFromInput` is set and the accumulator is empty the select produces
nothing (per the spec, Branches 1–2's own Selects "would already have
produced a result or left the accumulator empty", which makes the guarded
cold-start select the operative fallback). -/
def rangeSelect (z : ZSet) (q : QueryEventRangeSelect) (acc : List ID) : List ID :=
  match (if q.MinFromInput then minScore? acc else some q.Min) with
  | none => []
  | some mn =>
    match (if q.Reverse then maxBy (fun p => p.2) (z.filter (fun p => inRange mn q.MinExcl q.Max p.2))
           else minBy (fun p => p.2) (z.filter (fun p => inRange mn q.MinExcl q.Max p.2))) with
    | none => []
    | some p => [p.1]

/-- Modelled from the spec: `PosRangeSelect [0, 0]` — the only positional
range this repository uses: the first (lowest-scored) member. -/
def posRangeSelectFirst (z : ZSet) : List ID :=
  match minBy (fun p => p.2) z with
  | none => []
  | some p => [p.1]

/-- Modelled from the spec: core.QueryEventScoreSelect — an exact-event score
lookup, used by acknowledgement "to test whether a specific Event is still
present with a still-valid score": the event is produced iff it is a member
and its stored score is at least `Min`. -/
def queryEventScoreSelect (z : ZSet) (eid : ID) (mn : TS) : List ID :=
  match z.scoreOf eid with
  | none => []
  | some sc => if mn ≤ sc then [eid] else []

/-- Modelled from the spec: the body of a core.QuerySelector.  The source
struct carries several optional fields of which every selector built by this
repository sets exactly one; modelled as a sum. -/
inductive SelectorKind where
  | events (evs : List ID)
  | range (q : QueryEventRangeSelect)
  | posFirst
  | score (eid : ID) (mn : TS)

/-- Modelled from the spec: core.QuerySelector — draws event ids from one
named collection (or seeds them explicitly) and either replaces the
accumulator or, when `Union` is set, extends it. -/
structure QuerySelector where
  es : EventSet
  Union : Bool
  kind : SelectorKind

/-- Modelled from the spec: one conjunct of a core.QueryConditional `And`
list.  The source type is recursive; the plans of this repository nest only
one level deep, captured by this non-recursive sub-condition. -/
structure SubConditional where
  IfInput : Bool := false
  IfNoInput : Bool := false
  IfEmpty : Option EventSet := none

/-- Modelled from the spec: core.QueryConditional — predicates IfInput
(accumulator non-empty), IfNoInput (accumulator empty), IfEmpty (named
collection currently has zero members), composable via And (all must hold).
The zero value places no constraint. -/
structure QueryConditional where
  IfInput : Bool := false
  IfNoInput : Bool := false
  IfEmpty : Option EventSet := none
  And : List SubConditional := []

def evalSub (sets : Sets) (acc : List ID) (c : SubConditional) : Bool :=
  (!c.IfInput || !acc.isEmpty) && (!c.IfNoInput || acc.isEmpty) &&
    (match c.IfEmpty with | none => true | some n => (sets n).isEmpty)

/-- Modelled from the spec: evaluate a conditional "against the state as
mutated so far". -/
def evalCond (sets : Sets) (acc : List ID) (c : QueryConditional) : Bool :=
  (!c.IfInput || !acc.isEmpty) && (!c.IfNoInput || acc.isEmpty) &&
    (match c.IfEmpty with | none => true | some n => (sets n).isEmpty) &&
    c.And.all (evalSub sets acc)

/-- Modelled from the spec: core.QueryAction — each action built by this
repository sets exactly one of QuerySelector / QueryAddTo / RemoveFrom /
Break (modelled as a sum), optionally guarded by a conditional. -/
inductive QueryAction where
  | sel (cond : QueryConditional) (s : QuerySelector)
  | addTo (cond : QueryConditional) (sets : List EventSet) (score : Option TS)
  | removeFrom (cond : QueryConditional) (sets : List EventSet)
  | brk (cond : QueryConditional)

/-- Modelled from the spec: effect of a Select on the accumulator. -/
def applySelector (sets : Sets) (acc : List ID) (s : QuerySelector) : List ID :=
  let res :=
    match s.kind with
    | .events evs => evs
    | .range q => rangeSelect (sets s.es) q acc
    | .posFirst => posRangeSelectFirst (sets s.es)
    | .score eid mn => queryEventScoreSelect (sets s.es) eid mn
  if s.Union then acc ++ res else res

/-- Add every accumulator id to a collection, each at the override score when
given and otherwise at its natural (id-derived) score. -/
def applyAdds (acc : List ID) (score : Option TS) (z : ZSet) : ZSet :=
  acc.foldl (fun z' x => z'.add x (score.getD x)) z

/-- Remove every accumulator id from a collection. -/
def applyRemoves (acc : List ID) (z : ZSet) : ZSet :=
  acc.foldl (fun z' x => z'.remove x) z

/-- Modelled from the spec: AddTo copies every accumulator id into the named
collections, with the optional Score override replacing the natural score. -/
def addAll (sets : Sets) (targets : List EventSet) (score : Option TS) (acc : List ID) : Sets :=
  fun n => if n ∈ targets then applyAdds acc score (sets n) else sets n

/-- Modelled from the spec: RemoveFrom removes every accumulator id from the
named collections. -/
def removeAll (sets : Sets) (targets : List EventSet) (acc : List ID) : Sets :=
  fun n => if n ∈ targets then applyRemoves acc (sets n) else sets n

/-- Modelled from the spec: the plan interpreter — applies each step in order
to the working accumulator (initially empty), evaluates conditionals against
the state as mutated so far, skips an action whose conditional is false,
stops at the first satisfied Break or after the last step, and returns the
final accumulator without undoing prior mutations. -/
def runActions : List QueryAction → Sets → List ID → List ID × Sets
  | [], sets, acc => (acc, sets)
  | .sel c s :: rest, sets, acc =>
    runActions rest sets (if evalCond sets acc c then applySelector sets acc s else acc)
  | .addTo c ts sc :: rest, sets, acc =>
    runActions rest (if evalCond sets acc c then addAll sets ts sc acc else sets) acc
  | .removeFrom c ts :: rest, sets, acc =>
    runActions rest (if evalCond sets acc c then removeAll sets ts acc else sets) acc
  | .brk c :: rest, sets, acc =>
    if evalCond sets acc c then (acc, sets) else runActions rest sets acc

/-- Result shape of core.Event as observed through QGet: the time-derived id
and the payload fetched from the payload store (Expire is derivable from the
id and not modelled separately).  The zero value is the "nothing found"
result. -/
structure Event where
  ID : ID := 0
  Contents : String := ""
deriving DecidableEq

/-- Client token (peel.Client), carried by every command; per the spec it is
used only for attribution. -/
structure Client where
  ID : String := ""
deriving DecidableEq

/-- Parameters of QAdd (peel.QAddCommand); Expire is modelled as a TS. -/
structure QAddCommand where
  Client : Client := {}
  Queue : String
  Expire : TS
  Contents : String

/-- Parameters of QGet (peel.QGetCommand); `AckDeadline = 0` models the zero
time.Time (no deadline given). -/
structure QGetCommand where
  Client : Client := {}
  Queue : String
  ConsumerGroup : String
  AckDeadline : TS := 0

/-- Parameters of QAck (peel.QAckCommand); of the Event field only the ID is
used for matching. -/
structure QAckCommand where
  Client : Client := {}
  Queue : String
  ConsumerGroup : String
  EventID : ID

/-- Modelled from the spec: the backing store as seen by the operations — the
event collections plus the external payload store (SetEvent/GetEvent), keyed
by event id. -/
structure Store where
  sets : Sets
  payloads : ID → Option String

/-- Plan built by QAdd (peel.go lines 63-78): seed the accumulator with the
new event, then add it to the queue's available collection at its natural
score. -/
def qaddPlan (q : String) (eid : ID) : List QueryAction :=
  [ .sel {} { es := queueAvailable q, Union := false, kind := .events [eid] },
    .addTo {} [queueAvailable q] none ]

/-- QAdd (peel.go lines 49-84).  The external collaborators core.NewEvent (id
generation) and core.SetEvent (payload storage) are not in the analysed
sources; per the spec they are modelled as oracle parameters: `idGen` is the
generated id (none = generation failure) and `setEventOk` tells whether the
payload write succeeded.  Returns (id, error flag, store); a failure returns
id 0 with an error, mirroring `return 0, err`. -/
def QAdd (idGen : Option ID) (setEventOk : Bool) (st : Store) (c : QAddCommand) :
    ID × Bool × Store :=
  match idGen with
  | none => (0, true, st)
  | some eid =>
    if setEventOk then
      let st1 : Store :=
        { st with payloads := fun i => if i = eid then some c.Contents else st.payloads i }
      (eid, false, { st1 with sets := (runActions (qaddPlan c.Queue eid) st1.sets []).2 })
    else (0, true, st)

/-- Commit tail of the QGet plan (peel.go lines 111-134): with a deadline,
add the candidate to in-progress-by-id (natural score) and then to
in-progress-by-ack-deadline (score = the deadline); without one, add it to
done. -/
def inProgOrDone (q g : String) (ackDeadline : TS) : List QueryAction :=
  if ackDeadline ≠ 0 then
    [ .addTo {} [queueInProgressByID q g] none,
      .addTo {} [queueInProgressByAck q g] (some ackDeadline) ]
  else
    [ .addTo {} [queueDone q g] none ]

/-- Break once a candidate has been found (peel.go lines 136-141). -/
def breakIfFound : QueryAction := .brk { IfInput := true }

/-- Range select for the most recent still-valid event (peel.go lines
143-149): score strictly greater than now, descending, one result. -/
def mostRecentSelect (now : TS) : QueryEventRangeSelect :=
  { Min := now, MinExcl := true, Max := 0, Reverse := true }

/-- Same bounds, ascending: the oldest still-valid event (peel.go lines
150-151). -/
def oldestSelect (now : TS) : QueryEventRangeSelect :=
  { mostRecentSelect now with Reverse := false }

/-- Plan built by QGet (peel.go lines 153-220), embedded action for action:
Branch 1 (redo) with commit tail and break; Branch 2 (continuation) with
commit tail and break; Branch 3 (cold start), guarded by done and
in-progress-by-id being empty — after which the source appends no further
actions. -/
def qgetPlan (q g : String) (now ackDeadline : TS) : List QueryAction :=
  ([ .sel {} { es := queueRedo q g, Union := false, kind := .range (oldestSelect now) },
     .removeFrom {} [queueRedo q g] ]
   ++ inProgOrDone q g ackDeadline ++ [breakIfFound])
  ++ ([ .sel {} { es := queueInProgressByID q g, Union := false,
                  kind := .range (mostRecentSelect now) },
        .sel {} { es := queueDone q g, Union := true, kind := .range (mostRecentSelect now) },
        .sel {} { es := queueAvailable q, Union := false,
                  kind := .range { MinFromInput := true, MinExcl := true } } ]
      ++ inProgOrDone q g ackDeadline ++ [breakIfFound])
  ++ [ .sel { And := [ { IfEmpty := some (queueDone q g) },
                       { IfEmpty := some (queueInProgressByID q g) } ] }
            { es := queueAvailable q, Union := false, kind := .posFirst } ]

/-- QGet (peel.go lines 101-236): run the plan; return the zero event with no
error when the final accumulator is empty (a normal outcome), otherwise fetch
the payload of the first accumulator id (GetEvent); a missing payload is the
only modelled error source (the Bool component). -/
def QGet (now : TS) (st : Store) (c : QGetCommand) : Event × Bool × Store :=
  match runActions (qgetPlan c.Queue c.ConsumerGroup now c.AckDeadline) st.sets [] with
  | ([], sets2) => ({}, false, { st with sets := sets2 })
  | (eid :: _, sets2) =>
    match st.payloads eid with
    | some cts => ({ ID := eid, Contents := cts }, false, { st with sets := sets2 })
    | none => ({}, true, { st with sets := sets2 })

/-- Plan built by QAck (peel.go lines 259-287): exact-score select on
in-progress-by-ack-deadline bounded below by now, break when nothing was
found, else remove from both in-progress collections and add to done. -/
def qackPlan (q g : String) (eid : ID) (now : TS) : List QueryAction :=
  [ .sel {} { es := queueInProgressByAck q g, Union := false, kind := .score eid now },
    .brk { IfNoInput := true },
    .removeFrom {} [queueInProgressByID q g, queueInProgressByAck q g],
    .addTo {} [queueDone q g] none ]

/-- QAck (peel.go lines 252-294): true iff the plan's final accumulator is
non-empty (`len(ee) > 0`). -/
def QAck (now : TS) (st : Store) (c : QAckCommand) : Bool × Store :=
  match runActions (qackPlan c.Queue c.ConsumerGroup c.EventID now) st.sets [] with
  | (acc, sets2) => (!acc.isEmpty, { st with sets := sets2 })

/-- Build a Sets value from an explicit assignment list (unlisted collections
are empty). -/
def setsOf (l : List (EventSet × ZSet)) : Sets :=
  fun n =>
    match l.find? (fun p => decide (p.1 = n)) with
    | some p => p.2
    | none => []

/-- Build a Store from explicit collection contents and payloads. -/
def storeOf (l : List (EventSet × ZSet)) (pl : List (ID × String)) : Store :=
  { sets := setsOf l,
    payloads := fun i => (pl.find? (fun p => p.1 == i)).map (fun p => p.2) }

/-- QGet command on queue "q", consumer group "g", with the given deadline. -/
def gcmd (d : TS) : QGetCommand :=
  { Queue := "q", ConsumerGroup := "g", AckDeadline := d }

/-- Cold-start store: one available event, no group state (used against C1). -/
def stCold : Store := storeOf [(queueAvailable "q", [(4, 4)])] [(4, "x")]

/-- Store with an expired member in redo and a live available event (used
against C2). -/
def stRedoExpired : Store :=
  storeOf [(queueRedo "q" "g", [(3, 3)]), (queueAvailable "q", [(8, 8)])]
    [(3, "a"), (8, "b")]

/-- Store with two live redo members and an older available event (witness
state for redo priority). -/
def stRedoLive : Store :=
  storeOf [(queueRedo "q" "g", [(30, 30), (20, 20)]), (queueAvailable "q", [(5, 5)])]
    [(20, "ra")]

/-- Store with two fresh available events and no group state (used against
C3). -/
def stAv57 : Store :=
  storeOf [(queueAvailable "q", [(5, 5), (7, 7)])] [(5, "e5"), (7, "e7")]

/-- Store with one live redo member (used against C4, Branch 1 side). -/
def stRedo9 : Store := storeOf [(queueRedo "q" "g", [(9, 9)])] [(9, "z")]

/-- Cold-start store with one available event (used against C4, Branch 3
side). -/
def stCold6 : Store := storeOf [(queueAvailable "q", [(6, 6)])] [(6, "y")]

/-- Fully empty store. -/
def stEmpty : Store := storeOf [] []

/-- Store with event 7 in progress against deadline 100 (used for QAck). -/
def stAck : Store :=
  storeOf [(queueInProgressByAck "q" "g", [(7, 100)]),
           (queueInProgressByID "q" "g", [(7, 7)])] []

/-- QAck command for event 7 on queue "q", group "g". -/
def cAck7 : QAckCommand := { Queue := "q", ConsumerGroup := "g", EventID := 7 }

/-- QAdd command used by witnesses. -/
def cAdd : QAddCommand := { Queue := "q", Expire := 50, Contents := "x" }

/-- Store where the expired event 2 sits in redo and also in available (used
against C10). -/
def stC10x : Store :=
  storeOf [(queueRedo "q" "g", [(2, 2)]), (queueAvailable "q", [(2, 2)])] [(2, "p")]

/-- Store where the expired event 2 sits only in redo (witness state for the
now-guard). -/
def stC10w : Store :=
  storeOf [(queueRedo "q" "g", [(2, 2)]), (queueDone "q" "g", [(3, 3)]),
           (queueAvailable "q", [(9, 9)])] []

theorem minBy_mem {α : Type} {f : α → Nat} {l : List α} {a : α}
    (h : minBy f l = some a) : a ∈ l := by
  induction l with
  | nil => simp [minBy] at h
  | cons x xs ih =>
    cases hxs : minBy f xs with
    | none =>
      simp only [minBy, hxs] at h
      cases h
      exact List.mem_cons_self _ _
    | some y =>
      simp only [minBy, hxs] at h
      by_cases hle : f x ≤ f y
      · rw [if_pos hle] at h; cases h; exact List.mem_cons_self _ _
      · rw [if_neg hle] at h; cases h; exact List.mem_cons_of_mem _ (ih hxs)

theorem minBy_eq_none {α : Type} {f : α → Nat} {l : List α}
    (h : minBy f l = none) : l = [] := by
  cases l with
  | nil => rfl
  | cons x xs =>
    cases hxs : minBy f xs with
    | none => simp only [minBy, hxs] at h; exact Option.noConfusion h
    | some y =>
      simp only [minBy, hxs] at h
      by_cases hle : f x ≤ f y
      · rw [if_pos hle] at h; exact Option.noConfusion h
      · rw [if_neg hle] at h; exact Option.noConfusion h

theorem minBy_le {α : Type} {f : α → Nat} {l : List α} {a : α}
    (h : minBy f l = some a) : ∀ b ∈ l, f a ≤ f b := by
  induction l generalizing a with
  | nil => simp [minBy] at h
  | cons x xs ih =>
    intro b hb
    cases hxs : minBy f xs with
    | none =>
      simp only [minBy, hxs] at h
      cases h
      rw [minBy_eq_none hxs] at hb
      rcases List.mem_cons.mp hb with rfl | hb
      · exact Nat.le_refl _
      · cases hb
    | some y =>
      simp only [minBy, hxs] at h
      rcases List.mem_cons.mp hb with hbx | hb
      · rw [hbx]
        by_cases hle : f x ≤ f y
        · rw [if_pos hle] at h; cases h; exact Nat.le_refl _
        · rw [if_neg hle] at h; cases h
          exact Nat.le_of_lt (Nat.lt_of_not_le hle)
      · by_cases hle : f x ≤ f y
        · rw [if_pos hle] at h; cases h
          exact Nat.le_trans hle (ih hxs b hb)
        · rw [if_neg hle] at h; cases h; exact ih hxs b hb

theorem minBy_eq_some {α : Type} {f : α → Nat} {l : List α} {a : α}
    (hmem : a ∈ l) (hmin : ∀ b ∈ l, f a ≤ f b)
    (huniq : ∀ b ∈ l, f b = f a → b = a) : minBy f l = some a := by
  cases hm : minBy f l with
  | none => rw [minBy_eq_none hm] at hmem; cases hmem
  | some m =>
    have h1 := minBy_mem hm
    have h2 := minBy_le hm a hmem
    have h3 := hmin m h1
    rw [huniq m h1 (Nat.le_antisymm h2 h3)]

theorem maxBy_mem {α : Type} {f : α → Nat} {l : List α} {a : α}
    (h : maxBy f l = some a) : a ∈ l := by
  induction l with
  | nil => simp [maxBy] at h
  | cons x xs ih =>
    cases hxs : maxBy f xs with
    | none =>
      simp only [maxBy, hxs] at h
      cases h
      exact List.mem_cons_self _ _
    | some y =>
      simp only [maxBy, hxs] at h
      by_cases hle : f y ≤ f x
      · rw [if_pos hle] at h; cases h; exact List.mem_cons_self _ _
      · rw [if_neg hle] at h; cases h; exact List.mem_cons_of_mem _ (ih hxs)

theorem maxBy_eq_none {α : Type} {f : α → Nat} {l : List α}
    (h : maxBy f l = none) : l = [] := by
  cases l with
  | nil => rfl
  | cons x xs =>
    cases hxs : maxBy f xs with
    | none => simp only [maxBy, hxs] at h; exact Option.noConfusion h
    | some y =>
      simp only [maxBy, hxs] at h
      by_cases hle : f y ≤ f x
      · rw [if_pos hle] at h; exact Option.noConfusion h
      · rw [if_neg hle] at h; exact Option.noConfusion h

theorem maxBy_ge {α : Type} {f : α → Nat} {l : List α} {a : α}
    (h : maxBy f l = some a) : ∀ b ∈ l, f b ≤ f a := by
  induction l generalizing a with
  | nil => simp [maxBy] at h
  | cons x xs ih =>
    intro b hb
    cases hxs : maxBy f xs with
    | none =>
      simp only [maxBy, hxs] at h
      cases h
      rw [maxBy_eq_none hxs] at hb
      rcases List.mem_cons.mp hb with rfl | hb
      · exact Nat.le_refl _
      · cases hb
    | some y =>
      simp only [maxBy, hxs] at h
      rcases List.mem_cons.mp hb with hbx | hb
      · rw [hbx]
        by_cases hle : f y ≤ f x
        · rw [if_pos hle] at h; cases h; exact Nat.le_refl _
        · rw [if_neg hle] at h; cases h
          exact Nat.le_of_lt (Nat.lt_of_not_le hle)
      · by_cases hle : f y ≤ f x
        · rw [if_pos hle] at h; cases h
          exact Nat.le_trans (ih hxs b hb) hle
        · rw [if_neg hle] at h; cases h; exact ih hxs b hb

theorem maxBy_eq_some {α : Type} {f : α → Nat} {l : List α} {a : α}
    (hmem : a ∈ l) (hmax : ∀ b ∈ l, f b ≤ f a)
    (huniq : ∀ b ∈ l, f b = f a → b = a) : maxBy f l = some a := by
  cases hm : maxBy f l with
  | none => rw [maxBy_eq_none hm] at hmem; cases hmem
  | some m =>
    have h1 := maxBy_mem hm
    have h2 := maxBy_ge hm a hmem
    have h3 := hmax m h1
    rw [huniq m h1 (Nat.le_antisymm h3 h2)]

theorem mem_remove_iff {z : ZSet} {x : ID} {p : ID × TS} :
    p ∈ z.remove x ↔ p ∈ z ∧ p.1 ≠ x := by
  simp [ZSet.remove, List.mem_filter, bne_iff_ne]

theorem mem_add_of_ne {z : ZSet} {x : ID} {sc : TS} {p : ID × TS} (h : p.1 ≠ x) :
    p ∈ z.add x sc ↔ p ∈ z := by
  obtain ⟨a, b⟩ := p
  simp only [ZSet.add, List.mem_cons, List.mem_filter, bne_iff_ne, Prod.mk.injEq]
  constructor
  · rintro (⟨rfl, rfl⟩ | ⟨hz, _⟩)
    · exact absurd rfl h
    · exact hz
  · intro hz; exact Or.inr ⟨hz, h⟩

theorem applyAdds_nil (sc : Option TS) (z : ZSet) : applyAdds [] sc z = z := rfl

theorem applyAdds_cons (x : ID) (xs : List ID) (sc : Option TS) (z : ZSet) :
    applyAdds (x :: xs) sc z = applyAdds xs sc (z.add x (sc.getD x)) := rfl

theorem applyRemoves_nil (z : ZSet) : applyRemoves [] z = z := rfl

theorem applyRemoves_cons (x : ID) (xs : List ID) (z : ZSet) :
    applyRemoves (x :: xs) z = applyRemoves xs (z.remove x) := rfl

theorem mem_applyAdds_of_not_mem {acc : List ID} {sc : Option TS} {z : ZSet}
    {p : ID × TS} (h : p.1 ∉ acc) : p ∈ applyAdds acc sc z ↔ p ∈ z := by
  induction acc generalizing z with
  | nil => exact Iff.rfl
  | cons x xs ih =>
    rw [applyAdds_cons]
    rw [ih (fun hx => h (List.mem_cons_of_mem x hx))]
    exact mem_add_of_ne (fun he => h (he ▸ List.mem_cons_self x xs))

theorem mem_applyRemoves_of_not_mem {acc : List ID} {z : ZSet}
    {p : ID × TS} (h : p.1 ∉ acc) : p ∈ applyRemoves acc z ↔ p ∈ z := by
  induction acc generalizing z with
  | nil => exact Iff.rfl
  | cons x xs ih =>
    rw [applyRemoves_cons]
    rw [ih (fun hx => h (List.mem_cons_of_mem x hx))]
    rw [mem_remove_iff]
    exact and_iff_left (fun he => h (he ▸ List.mem_cons_self x xs))

theorem addAll_target {sets : Sets} {ts : List EventSet} {sc : Option TS}
    {acc : List ID} {n : EventSet} (h : n ∈ ts) :
    addAll sets ts sc acc n = applyAdds acc sc (sets n) := by
  simp [addAll, h]

theorem addAll_not_target {sets : Sets} {ts : List EventSet} {sc : Option TS}
    {acc : List ID} {n : EventSet} (h : n ∉ ts) :
    addAll sets ts sc acc n = sets n := by
  simp [addAll, h]

theorem removeAll_target {sets : Sets} {ts : List EventSet} {acc : List ID}
    {n : EventSet} (h : n ∈ ts) :
    removeAll sets ts acc n = applyRemoves acc (sets n) := by
  simp [removeAll, h]

theorem removeAll_not_target {sets : Sets} {ts : List EventSet} {acc : List ID}
    {n : EventSet} (h : n ∉ ts) :
    removeAll sets ts acc n = sets n := by
  simp [removeAll, h]

theorem addAll_nil_acc (sets : Sets) (ts : List EventSet) (sc : Option TS) :
    addAll sets ts sc [] = sets := by
  funext n
  simp only [addAll, applyAdds_nil]
  split <;> rfl

theorem removeAll_nil_acc (sets : Sets) (ts : List EventSet) :
    removeAll sets ts [] = sets := by
  funext n
  simp only [removeAll, applyRemoves_nil]
  split <;> rfl

theorem evalCond_default (sets : Sets) (acc : List ID) :
    evalCond sets acc {} = true := rfl

theorem evalCond_found_cons (sets : Sets) (x : ID) (l : List ID) :
    evalCond sets (x :: l) { IfInput := true } = true := rfl

theorem evalCond_found_nil (sets : Sets) :
    evalCond sets [] { IfInput := true } = false := rfl

theorem evalCond_noInput_nil (sets : Sets) :
    evalCond sets [] { IfNoInput := true } = true := rfl

theorem evalCond_noInput_cons (sets : Sets) (x : ID) (l : List ID) :
    evalCond sets (x :: l) { IfNoInput := true } = false := rfl

theorem inRange_excl_lt {mn mx sc : TS} (h : inRange mn true mx sc = true) :
    mn < sc := by
  simp only [inRange, if_true, Bool.and_eq_true, decide_eq_true_eq] at h
  exact h.1

theorem inRange_of_excl_lt {mn sc : TS} (h : mn < sc) :
    inRange mn true 0 sc = true := by
  simp [inRange, h]

theorem rangeSelect_eq_inner {z : ZSet} {q : QueryEventRangeSelect} {acc : List ID}
    {mn : TS} (hmn : (if q.MinFromInput then minScore? acc else some q.Min) = some mn) :
    rangeSelect z q acc =
      match (if q.Reverse then
          maxBy (fun p => p.2) (z.filter (fun p => inRange mn q.MinExcl q.Max p.2))
        else
          minBy (fun p => p.2) (z.filter (fun p => inRange mn q.MinExcl q.Max p.2))) with
      | none => []
      | some p => [p.1] := by
  unfold rangeSelect
  rw [hmn]

theorem rangeSelect_sound {z : ZSet} {q : QueryEventRangeSelect} {acc : List ID}
    {x : ID} (h : x ∈ rangeSelect z q acc) :
    ∃ (p : ID × TS) (mn : TS), p ∈ z ∧ p.1 = x ∧
      inRange mn q.MinExcl q.Max p.2 = true ∧
      (q.MinFromInput = false → mn = q.Min) := by
  rcases hmn : (if q.MinFromInput then minScore? acc else some q.Min) with _ | mn
  · rw [rangeSelect] at h
    rw [hmn] at h
    simp at h
  · rw [rangeSelect_eq_inner hmn] at h
    rcases hsel : (if q.Reverse then
        maxBy (fun p => p.2) (z.filter (fun p => inRange mn q.MinExcl q.Max p.2))
      else
        minBy (fun p => p.2) (z.filter (fun p => inRange mn q.MinExcl q.Max p.2)))
      with _ | p <;> rw [hsel] at h
    · simp at h
    · have hp : p ∈ z.filter (fun p => inRange mn q.MinExcl q.Max p.2) := by
        split at hsel
        · exact maxBy_mem hsel
        · exact minBy_mem hsel
      have hx : x = p.1 := by simpa using h
      refine ⟨p, mn, (List.mem_filter.mp hp).1, hx.symm, (List.mem_filter.mp hp).2, ?_⟩
      intro hmf
      rw [hmf] at hmn
      simp only [Bool.false_eq_true, if_false, Option.some.injEq] at hmn
      exact hmn.symm

theorem rangeSelect_asc_eq {z : ZSet} {q : QueryEventRangeSelect} {acc : List ID}
    {mn : TS} {p0 : ID × TS}
    (hrev : q.Reverse = false)
    (hmn : (if q.MinFromInput then minScore? acc else some q.Min) = some mn)
    (hmem : p0 ∈ z) (hin : inRange mn q.MinExcl q.Max p0.2 = true)
    (hmin : ∀ b ∈ z, inRange mn q.MinExcl q.Max b.2 = true → p0.2 ≤ b.2)
    (huniq : ∀ b ∈ z, inRange mn q.MinExcl q.Max b.2 = true → b.2 = p0.2 → b = p0) :
    rangeSelect z q acc = [p0.1] := by
  have hby : minBy (fun p => p.2) (z.filter (fun p => inRange mn q.MinExcl q.Max p.2)) =
      some p0 := by
    apply minBy_eq_some
    · exact List.mem_filter.mpr ⟨hmem, hin⟩
    · intro b hb
      exact hmin b (List.mem_filter.mp hb).1 (List.mem_filter.mp hb).2
    · intro b hb hfb
      exact huniq b (List.mem_filter.mp hb).1 (List.mem_filter.mp hb).2 hfb
  unfold rangeSelect
  simp only [hmn, hrev, Bool.false_eq_true, if_false, hby]

theorem rangeSelect_desc_eq {z : ZSet} {q : QueryEventRangeSelect} {acc : List ID}
    {mn : TS} {p0 : ID × TS}
    (hrev : q.Reverse = true)
    (hmn : (if q.MinFromInput then minScore? acc else some q.Min) = some mn)
    (hmem : p0 ∈ z) (hin : inRange mn q.MinExcl q.Max p0.2 = true)
    (hmax : ∀ b ∈ z, inRange mn q.MinExcl q.Max b.2 = true → b.2 ≤ p0.2)
    (huniq : ∀ b ∈ z, inRange mn q.MinExcl q.Max b.2 = true → b.2 = p0.2 → b = p0) :
    rangeSelect z q acc = [p0.1] := by
  have hby : maxBy (fun p => p.2) (z.filter (fun p => inRange mn q.MinExcl q.Max p.2)) =
      some p0 := by
    apply maxBy_eq_some
    · exact List.mem_filter.mpr ⟨hmem, hin⟩
    · intro b hb
      exact hmax b (List.mem_filter.mp hb).1 (List.mem_filter.mp hb).2
    · intro b hb hfb
      exact huniq b (List.mem_filter.mp hb).1 (List.mem_filter.mp hb).2 hfb
  unfold rangeSelect
  simp only [hmn, hrev, if_true, hby]

theorem rangeSelect_nil (q : QueryEventRangeSelect) (acc : List ID) :
    rangeSelect [] q acc = [] := by
  unfold rangeSelect
  rcases hmn : (if q.MinFromInput then minScore? acc else some q.Min) with _ | mn
  · simp only [hmn]
  · simp only [hmn, List.filter_nil]
    split
    · rfl
    · rename_i p heq
      split at heq
      · exact Option.noConfusion heq
      · exact Option.noConfusion heq

theorem posFirst_sound {z : ZSet} {x : ID} (h : x ∈ posRangeSelectFirst z) :
    ∃ p : ID × TS, p ∈ z ∧ p.1 = x := by
  unfold posRangeSelectFirst at h
  rcases hm : minBy (fun p => p.2) z with _ | p <;> rw [hm] at h
  · simp at h
  · have hx : x = p.1 := by simpa using h
    exact ⟨p, minBy_mem hm, hx.symm⟩

theorem qgetPlan_no_deadline (q g : String) (now : TS) :
    qgetPlan q g now 0 =
      [ .sel {} { es := queueRedo q g, Union := false, kind := .range (oldestSelect now) },
        .removeFrom {} [queueRedo q g],
        .addTo {} [queueDone q g] none,
        .brk { IfInput := true },
        .sel {} { es := queueInProgressByID q g, Union := false,
                  kind := .range (mostRecentSelect now) },
        .sel {} { es := queueDone q g, Union := true, kind := .range (mostRecentSelect now) },
        .sel {} { es := queueAvailable q, Union := false,
                  kind := .range { MinFromInput := true, MinExcl := true } },
        .addTo {} [queueDone q g] none,
        .brk { IfInput := true },
        .sel { And := [ { IfEmpty := some (queueDone q g) },
                        { IfEmpty := some (queueInProgressByID q g) } ] }
             { es := queueAvailable q, Union := false, kind := .posFirst } ] := by
  simp [qgetPlan, inProgOrDone, breakIfFound]

theorem qgetPlan_deadline (q g : String) (now d : TS) (hd : d ≠ 0) :
    qgetPlan q g now d =
      [ .sel {} { es := queueRedo q g, Union := false, kind := .range (oldestSelect now) },
        .removeFrom {} [queueRedo q g],
        .addTo {} [queueInProgressByID q g] none,
        .addTo {} [queueInProgressByAck q g] (some d),
        .brk { IfInput := true },
        .sel {} { es := queueInProgressByID q g, Union := false,
                  kind := .range (mostRecentSelect now) },
        .sel {} { es := queueDone q g, Union := true, kind := .range (mostRecentSelect now) },
        .sel {} { es := queueAvailable q, Union := false,
                  kind := .range { MinFromInput := true, MinExcl := true } },
        .addTo {} [queueInProgressByID q g] none,
        .addTo {} [queueInProgressByAck q g] (some d),
        .brk { IfInput := true },
        .sel { And := [ { IfEmpty := some (queueDone q g) },
                        { IfEmpty := some (queueInProgressByID q g) } ] }
             { es := queueAvailable q, Union := false, kind := .posFirst } ] := by
  simp [qgetPlan, inProgOrDone, breakIfFound, hd]

theorem runActions_invariant (P : Sets → List ID → Prop)
    (qs : List QueryAction) (sets : Sets) (acc : List ID)
    (hsel : ∀ c s, QueryAction.sel c s ∈ qs → ∀ sets2 acc2, P sets2 acc2 →
      P sets2 (applySelector sets2 acc2 s))
    (hadd : ∀ c ts sc, QueryAction.addTo c ts sc ∈ qs → ∀ sets2 acc2, P sets2 acc2 →
      P (addAll sets2 ts sc acc2) acc2)
    (hrem : ∀ c ts, QueryAction.removeFrom c ts ∈ qs → ∀ sets2 acc2, P sets2 acc2 →
      P (removeAll sets2 ts acc2) acc2)
    (hP : P sets acc) :
    P (runActions qs sets acc).2 (runActions qs sets acc).1 := by
  have main : ∀ qs2 : List QueryAction, (∀ qa ∈ qs2, qa ∈ qs) →
      ∀ sets2 acc2, P sets2 acc2 →
      P (runActions qs2 sets2 acc2).2 (runActions qs2 sets2 acc2).1 := by
    intro qs2
    induction qs2 with
    | nil => intro _ sets2 acc2 h; exact h
    | cons qa rest ih =>
      intro hsub sets2 acc2 h
      have hrest : ∀ qa2 ∈ rest, qa2 ∈ qs :=
        fun qa2 hq => hsub qa2 (List.mem_cons_of_mem _ hq)
      have hhead : qa ∈ qs := hsub qa (List.mem_cons_self _ _)
      cases qa with
      | sel c s =>
        simp only [runActions]
        split
        · exact ih hrest _ _ (hsel c s hhead sets2 acc2 h)
        · exact ih hrest _ _ h
      | addTo c ts sc =>
        simp only [runActions]
        split
        · exact ih hrest _ _ (hadd c ts sc hhead sets2 acc2 h)
        · exact ih hrest _ _ h
      | removeFrom c ts =>
        simp only [runActions]
        split
        · exact ih hrest _ _ (hrem c ts hhead sets2 acc2 h)
        · exact ih hrest _ _ h
      | brk c =>
        simp only [runActions]
        split
        · exact h
        · exact ih hrest _ _ h
  exact main qs (fun _ h => h) sets acc hP

/-- C1: the spec states that Branch 3 (cold start) is followed by the same
commit-and-stop tail as Branches 1 and 2, so a cold-start candidate is added
to in-progress-by-id and in-progress-by-ack-deadline (deadline given) or to
done (no deadline) before the plan ends.  The source appends no tail after
the Branch-3 select (the plan built in peel.go ends at line 220), so the
returned candidate is recorded nowhere: on a cold-start store QGet returns
the available event while every group collection stays empty, with or
without a deadline. -/
theorem qget_branch3_tail_missing :
    (QGet 1 stCold (gcmd 77)).1 = { ID := 4, Contents := "x" } ∧
    (QGet 1 stCold (gcmd 77)).2.2.sets (queueInProgressByID "q" "g") = [] ∧
    (QGet 1 stCold (gcmd 77)).2.2.sets (queueInProgressByAck "q" "g") = [] ∧
    (QGet 1 stCold (gcmd 77)).2.2.sets (queueDone "q" "g") = [] ∧
    (QGet 1 stCold (gcmd 0)).1 = { ID := 4, Contents := "x" } ∧
    (QGet 1 stCold (gcmd 0)).2.2.sets (queueDone "q" "g") = [] := by
  decide

/-- C3: the claim says that after an auto-done QGet returned event 5 (redo
empty), the next QGet for the group returns the smallest available event
above 5.  Because the cold-start branch commits nothing (see C1), an
auto-done QGet that returned event 5 through Branch 3 leaves done empty, and
the next QGet returns event 5 again even though event 7 > 5 is available. -/
theorem qget_continuation_after_coldstart_broken :
    (5, 5) ∈ stAv57.sets (queueAvailable "q") ∧
    (7, 7) ∈ stAv57.sets (queueAvailable "q") ∧
    (QGet 1 stAv57 (gcmd 0)).1 = { ID := 5, Contents := "e5" } ∧
    (QGet 1 stAv57 (gcmd 0)).2.2.sets (queueDone "q" "g") = [] ∧
    (QGet 1 (QGet 1 stAv57 (gcmd 0)).2.2 (gcmd 0)).1 = { ID := 5, Contents := "e5" } := by
  decide

/-- C4: the claim says every QGet call that selects a candidate commits it
per the deadline dichotomy.  For a Branch-1 candidate the dichotomy holds
(redo event 9 dequeued with deadline 88 lands in in-progress-by-id at its
natural score and in in-progress-by-ack-deadline at score 88, not in done),
but a Branch-3 candidate selected with a non-zero deadline is committed to
neither in-progress collection, because the source appends no commit tail
after the cold-start select. -/
theorem qget_deadline_commit_dichotomy_gap :
    (QGet 2 stRedo9 (gcmd 88)).1 = { ID := 9, Contents := "z" } ∧
    (QGet 2 stRedo9 (gcmd 88)).2.2.sets (queueInProgressByID "q" "g") = [(9, 9)] ∧
    (QGet 2 stRedo9 (gcmd 88)).2.2.sets (queueInProgressByAck "q" "g") = [(9, 88)] ∧
    (QGet 2 stRedo9 (gcmd 88)).2.2.sets (queueDone "q" "g") = [] ∧
    (QGet 2 stCold6 (gcmd 88)).1 = { ID := 6, Contents := "y" } ∧
    (QGet 2 stCold6 (gcmd 88)).2.2.sets (queueInProgressByID "q" "g") = [] ∧
    (QGet 2 stCold6 (gcmd 88)).2.2.sets (queueInProgressByAck "q" "g") = [] := by
  decide

/-- C5: a QGet whose plan execution leaves the final accumulator empty
returns the zero-value Event together with no error: the empty case is a
normal outcome, never an operation failure. -/
theorem qget_empty_result_no_error (now : TS) (st : Store) (c : QGetCommand)
    (h : (runActions (qgetPlan c.Queue c.ConsumerGroup now c.AckDeadline) st.sets []).1 = []) :
    (QGet now st c).1 = { ID := 0, Contents := "" } ∧ (QGet now st c).2.1 = false := by
  rcases hr : runActions (qgetPlan c.Queue c.ConsumerGroup now c.AckDeadline) st.sets []
    with ⟨acc, sets2⟩
  rw [hr] at h
  obtain rfl : acc = [] := h
  unfold QGet
  rw [hr]
  exact ⟨rfl, rfl⟩

theorem qget_empty_result_no_error_witness :
    (runActions (qgetPlan "q" "g" 5 0) stEmpty.sets []).1 = [] ∧
    (QGet 5 stEmpty (gcmd 0)).1 = { ID := 0, Contents := "" } ∧
    (QGet 5 stEmpty (gcmd 0)).2.1 = false := by
  refine ⟨by decide, ?_, ?_⟩
  · exact (qget_empty_result_no_error 5 stEmpty (gcmd 0) (by decide)).1
  · exact (qget_empty_result_no_error 5 stEmpty (gcmd 0) (by decide)).2

/-- C8: a failure of id generation or of payload storage makes QAdd return a
zero id with an error and leave the store untouched (the collection plan
never runs), while a full success returns the new id without error, stores
the payload, and adds the event to available (and only to available) at its
natural score — so no event is ever in available without a stored payload. -/
theorem qadd_failure_aborts_success_adds (idGen : Option ID) (ok : Bool)
    (st : Store) (c : QAddCommand) :
    (idGen = none → QAdd idGen ok st c = (0, true, st)) ∧
    (ok = false → QAdd idGen ok st c = (0, true, st)) ∧
    (∀ eid : ID, idGen = some eid → ok = true →
      (QAdd idGen ok st c).1 = eid ∧
      (QAdd idGen ok st c).2.1 = false ∧
      (QAdd idGen ok st c).2.2.sets (queueAvailable c.Queue) =
        (st.sets (queueAvailable c.Queue)).add eid eid ∧
      (QAdd idGen ok st c).2.2.payloads eid = some c.Contents ∧
      (∀ n : EventSet, n ≠ queueAvailable c.Queue →
        (QAdd idGen ok st c).2.2.sets n = st.sets n)) := by
  refine ⟨?_, ?_, ?_⟩
  · rintro rfl; rfl
  · rintro rfl; cases idGen <;> rfl
  · rintro eid rfl rfl
    have hq : QAdd (some eid) true st c =
        (eid, false,
          { sets := addAll st.sets [queueAvailable c.Queue] none [eid],
            payloads := fun i => if i = eid then some c.Contents else st.payloads i }) := by
      simp [QAdd, qaddPlan, runActions, applySelector, evalCond_default]
    rw [hq]
    refine ⟨rfl, rfl, ?_, ?_, ?_⟩
    · show addAll st.sets [queueAvailable c.Queue] none [eid] (queueAvailable c.Queue) =
        (st.sets (queueAvailable c.Queue)).add eid eid
      rw [addAll_target (List.mem_singleton.mpr rfl)]
      rfl
    · simp
    · intro n hn
      show addAll st.sets [queueAvailable c.Queue] none [eid] n = st.sets n
      exact addAll_not_target (by simpa using hn)

/-- C9: the Client token embedded in each command has no behavioural effect:
two commands differing only in the Client field produce identical QAdd, QGet
and QAck results (the operations never read the token). -/
theorem client_token_immaterial (idGen : Option ID) (ok : Bool) (now : TS)
    (st : Store) (cl : Client) (ca : QAddCommand) (cg : QGetCommand)
    (ck : QAckCommand) :
    QAdd idGen ok st { ca with Client := cl } = QAdd idGen ok st ca ∧
    QGet now st { cg with Client := cl } = QGet now st cg ∧
    QAck now st { ck with Client := cl } = QAck now st ck := by
  refine ⟨?_, ?_, ?_⟩
  · cases ca; rfl
  · cases cg; rfl
  · cases ck; rfl

/-- C2 counterexample: redo is non-empty (it holds event 3, whose score 3 is
not above now = 10), yet QGet returns the available event 8 and leaves event
3 sitting in redo — the claim that a non-empty redo always yields its oldest
member first, regardless of ages, fails on this input. -/
theorem qget_redo_nonempty_not_preferred :
    stRedoExpired.sets (queueRedo "q" "g") = [(3, 3)] ∧
    (QGet 10 stRedoExpired (gcmd 0)).1 = { ID := 8, Contents := "b" } ∧
    (QGet 10 stRedoExpired (gcmd 0)).2.2.sets (queueRedo "q" "g") = [(3, 3)] := by
  decide

/-- C10 counterexample: event 2 is present in redo with score 2 ≤ now = 10,
yet QGet returns it — it is also a member of available, and the cold-start
select on available is not now-restricted.  The claim that such an event is
never returned by QGet fails on this input (it is, however, not removed from
redo). -/
theorem qget_expired_redo_member_returned :
    (2, 2) ∈ stC10x.sets (queueRedo "q" "g") ∧
    (QGet 10 stC10x (gcmd 0)).1 = { ID := 2, Contents := "p" } ∧
    (2, 2) ∈ (QGet 10 stC10x (gcmd 0)).2.2.sets (queueRedo "q" "g") := by
  decide

/-- C6: QAck returns true iff the event is found in in-progress-by-ack-deadline
with a still-valid score (score at least now), and in that case the event is
removed from both in-progress collections and added to done within the same
plan; false means the deadline was missed. -/
theorem qack_true_iff_within_deadline (now : TS) (st : Store) (c : QAckCommand) :
    ((QAck now st c).1 = true ↔
      (∃ sc : TS,
        (st.sets (queueInProgressByAck c.Queue c.ConsumerGroup)).scoreOf c.EventID =
          some sc ∧ now ≤ sc)) ∧
    ((QAck now st c).1 = true →
      (QAck now st c).2.sets (queueInProgressByID c.Queue c.ConsumerGroup) =
        (st.sets (queueInProgressByID c.Queue c.ConsumerGroup)).remove c.EventID ∧
      (QAck now st c).2.sets (queueInProgressByAck c.Queue c.ConsumerGroup) =
        (st.sets (queueInProgressByAck c.Queue c.ConsumerGroup)).remove c.EventID ∧
      (QAck now st c).2.sets (queueDone c.Queue c.ConsumerGroup) =
        (st.sets (queueDone c.Queue c.ConsumerGroup)).add c.EventID c.EventID) := by
  rcases hsc : (st.sets (queueInProgressByAck c.Queue c.ConsumerGroup)).scoreOf c.EventID
    with _ | sc
  · have hq : queryEventScoreSelect
        (st.sets (queueInProgressByAck c.Queue c.ConsumerGroup)) c.EventID now = [] := by
      simp [queryEventScoreSelect, hsc]
    have hfalse : (QAck now st c).1 = false := by
      simp [QAck, qackPlan, runActions, applySelector, hq, evalCond_default,
        evalCond_noInput_nil]
    constructor
    · constructor
      · intro ht; rw [hfalse] at ht; exact Bool.noConfusion ht
      · rintro ⟨sc2, hsome, _⟩
        exact Option.noConfusion hsome
    · intro ht; rw [hfalse] at ht; exact Bool.noConfusion ht
  · by_cases hle : now ≤ sc
    · have hq : queryEventScoreSelect
          (st.sets (queueInProgressByAck c.Queue c.ConsumerGroup)) c.EventID now =
          [c.EventID] := by
        simp [queryEventScoreSelect, hsc, hle]
      have hrun : runActions (qackPlan c.Queue c.ConsumerGroup c.EventID now) st.sets [] =
          ([c.EventID],
            addAll (removeAll st.sets
                [queueInProgressByID c.Queue c.ConsumerGroup,
                 queueInProgressByAck c.Queue c.ConsumerGroup] [c.EventID])
              [queueDone c.Queue c.ConsumerGroup] none [c.EventID]) := by
        simp [qackPlan, runActions, applySelector, hq, evalCond_default,
          evalCond_noInput_cons]
      have htrue : (QAck now st c).1 = true := by
        simp [QAck, hrun]
      have hsets : (QAck now st c).2.sets =
          addAll (removeAll st.sets
              [queueInProgressByID c.Queue c.ConsumerGroup,
               queueInProgressByAck c.Queue c.ConsumerGroup] [c.EventID])
            [queueDone c.Queue c.ConsumerGroup] none [c.EventID] := by
        simp [QAck, hrun]
      refine ⟨⟨fun _ => ⟨sc, rfl, hle⟩, fun _ => htrue⟩, fun _ => ?_⟩
      rw [hsets]
      refine ⟨?_, ?_, ?_⟩
      · rw [addAll_not_target (by simp [queueInProgressByID, queueDone]),
          removeAll_target (by simp)]
        rfl
      · rw [addAll_not_target (by simp [queueInProgressByAck, queueDone]),
          removeAll_target (by simp)]
        rfl
      · rw [addAll_target (by simp),
          removeAll_not_target (by simp [queueInProgressByID, queueInProgressByAck,
            queueDone])]
        rfl
    · have hq : queryEventScoreSelect
          (st.sets (queueInProgressByAck c.Queue c.ConsumerGroup)) c.EventID now = [] := by
        simp [queryEventScoreSelect, hsc, hle]
      have hfalse : (QAck now st c).1 = false := by
        simp [QAck, qackPlan, runActions, applySelector, hq, evalCond_default,
          evalCond_noInput_nil]
      constructor
      · constructor
        · intro ht; rw [hfalse] at ht; exact Bool.noConfusion ht
        · rintro ⟨sc2, hsome, hle2⟩
          cases hsome
          exact absurd hle2 hle
      · intro ht; rw [hfalse] at ht; exact Bool.noConfusion ht

theorem qack_true_iff_within_deadline_witness :
    (QAck 50 stAck cAck7).1 = true ∧
    (QAck 50 stAck cAck7).2.sets (queueDone "q" "g") = [(7, 7)] ∧
    (QAck 50 stAck cAck7).2.sets (queueInProgressByAck "q" "g") = [] := by
  have h := qack_true_iff_within_deadline 50 stAck cAck7
  have htrue : (QAck 50 stAck cAck7).1 = true := h.1.mpr ⟨100, by decide, by decide⟩
  refine ⟨htrue, ?_, ?_⟩
  · show (QAck 50 stAck cAck7).2.sets (queueDone cAck7.Queue cAck7.ConsumerGroup) = [(7, 7)]
    rw [(h.2 htrue).2.2]
    decide
  · show (QAck 50 stAck cAck7).2.sets
      (queueInProgressByAck cAck7.Queue cAck7.ConsumerGroup) = []
    rw [(h.2 htrue).2.1]
    decide

/-- C7: whenever QAck returns false (the event was not found with a
still-valid score), the plan breaks before its RemoveFrom and AddTo steps and
the whole store is left unchanged. -/
theorem qack_false_leaves_state (now : TS) (st : Store) (c : QAckCommand)
    (h : (QAck now st c).1 = false) : (QAck now st c).2 = st := by
  rcases hq : queryEventScoreSelect
      (st.sets (queueInProgressByAck c.Queue c.ConsumerGroup)) c.EventID now
    with _ | ⟨v, rest⟩
  · have hrun : runActions (qackPlan c.Queue c.ConsumerGroup c.EventID now) st.sets [] =
        ([], st.sets) := by
      simp [qackPlan, runActions, applySelector, hq, evalCond_default,
        evalCond_noInput_nil]
    unfold QAck
    rw [hrun]
  · exfalso
    have htrue : (QAck now st c).1 = true := by
      simp [QAck, qackPlan, runActions, applySelector, hq, evalCond_default,
        evalCond_noInput_cons]
    rw [htrue] at h
    exact Bool.noConfusion h

theorem qack_false_leaves_state_witness :
    (QAck 101 stAck cAck7).1 = false ∧ (QAck 101 stAck cAck7).2 = stAck :=
  ⟨by decide, qack_false_leaves_state 101 stAck cAck7 (by decide)⟩

theorem qadd_failure_aborts_success_adds_witness :
    QAdd none true stEmpty cAdd = (0, true, stEmpty) ∧
    QAdd (some 9) false stEmpty cAdd = (0, true, stEmpty) ∧
    (QAdd (some 9) true stEmpty cAdd).1 = 9 ∧
    (QAdd (some 9) true stEmpty cAdd).2.1 = false ∧
    (QAdd (some 9) true stEmpty cAdd).2.2.sets (queueAvailable "q") = [(9, 9)] ∧
    (QAdd (some 9) true stEmpty cAdd).2.2.payloads 9 = some "x" := by
  have h1 := (qadd_failure_aborts_success_adds none true stEmpty cAdd).1 rfl
  have h2 := (qadd_failure_aborts_success_adds (some 9) false stEmpty cAdd).2.1 rfl
  have h3 := (qadd_failure_aborts_success_adds (some 9) true stEmpty cAdd).2.2 9 rfl rfl
  refine ⟨h1, h2, h3.1, h3.2.1, ?_, h3.2.2.2.1⟩
  have h4 := h3.2.2.1
  rw [show cAdd.Queue = "q" from rfl] at h4
  rw [h4]
  decide

/-- C2 (amended): if redo contains a member whose score is strictly greater
than now, then QGet selects and returns the oldest such member of redo —
before any member of available, whatever available holds — and removes it
from redo within the same plan. -/
theorem qget_redo_priority (now : TS) (st : Store) (c : QGetCommand) (r : ID)
    (cts : String)
    (hnat : ∀ p ∈ st.sets (queueRedo c.Queue c.ConsumerGroup), p.1 = p.2)
    (hmem : (r, r) ∈ st.sets (queueRedo c.Queue c.ConsumerGroup))
    (hnow : now < r)
    (hmin : ∀ p ∈ st.sets (queueRedo c.Queue c.ConsumerGroup), now < p.2 → r ≤ p.2)
    (hpl : st.payloads r = some cts) :
    (QGet now st c).1 = { ID := r, Contents := cts } ∧
    (QGet now st c).2.1 = false ∧
    (QGet now st c).2.2.sets (queueRedo c.Queue c.ConsumerGroup) =
      (st.sets (queueRedo c.Queue c.ConsumerGroup)).remove r := by
  have hsel : rangeSelect (st.sets (queueRedo c.Queue c.ConsumerGroup))
      (oldestSelect now) [] = [r] := by
    apply @rangeSelect_asc_eq (st.sets (queueRedo c.Queue c.ConsumerGroup))
      (oldestSelect now) [] now ((r, r) : ID × TS)
    · rfl
    · rfl
    · exact hmem
    · exact inRange_of_excl_lt hnow
    · intro b hb hbin
      exact hmin b hb (inRange_excl_lt hbin)
    · intro b hb hbin hbeq
      have h1 := hnat b hb
      obtain ⟨b1, b2⟩ := b
      simp only at h1 hbeq
      subst hbeq
      subst h1
      rfl
  by_cases hd : c.AckDeadline = 0
  · have hrun : runActions (qgetPlan c.Queue c.ConsumerGroup now c.AckDeadline) st.sets [] =
        ([r],
          addAll (removeAll st.sets [queueRedo c.Queue c.ConsumerGroup] [r])
            [queueDone c.Queue c.ConsumerGroup] none [r]) := by
      rw [hd, qgetPlan_no_deadline]
      simp [runActions, applySelector, evalCond_default, evalCond_found_cons, hsel]
    unfold QGet
    rw [hrun]
    simp only [hpl]
    refine ⟨trivial, trivial, ?_⟩
    show addAll (removeAll st.sets [queueRedo c.Queue c.ConsumerGroup] [r])
        [queueDone c.Queue c.ConsumerGroup] none [r]
        (queueRedo c.Queue c.ConsumerGroup) = _
    rw [addAll_not_target (by simp [queueRedo, queueDone]),
      removeAll_target (List.mem_singleton.mpr rfl)]
    rfl
  · have hrun : runActions (qgetPlan c.Queue c.ConsumerGroup now c.AckDeadline) st.sets [] =
        ([r],
          addAll (addAll (removeAll st.sets [queueRedo c.Queue c.ConsumerGroup] [r])
              [queueInProgressByID c.Queue c.ConsumerGroup] none [r])
            [queueInProgressByAck c.Queue c.ConsumerGroup] (some c.AckDeadline) [r]) := by
      rw [qgetPlan_deadline c.Queue c.ConsumerGroup now c.AckDeadline hd]
      simp [runActions, applySelector, evalCond_default, evalCond_found_cons, hsel]
    unfold QGet
    rw [hrun]
    simp only [hpl]
    refine ⟨trivial, trivial, ?_⟩
    show addAll (addAll (removeAll st.sets [queueRedo c.Queue c.ConsumerGroup] [r])
          [queueInProgressByID c.Queue c.ConsumerGroup] none [r])
        [queueInProgressByAck c.Queue c.ConsumerGroup] (some c.AckDeadline) [r]
        (queueRedo c.Queue c.ConsumerGroup) = _
    rw [addAll_not_target (by simp [queueRedo, queueInProgressByAck]),
      addAll_not_target (by simp [queueRedo, queueInProgressByID]),
      removeAll_target (List.mem_singleton.mpr rfl)]
    rfl

theorem qget_redo_priority_witness :
    (QGet 10 stRedoLive (gcmd 0)).1 = { ID := 20, Contents := "ra" } ∧
    (QGet 10 stRedoLive (gcmd 0)).2.2.sets (queueRedo "q" "g") = [(30, 30)] := by
  have h := qget_redo_priority 10 stRedoLive (gcmd 0) 20 "ra"
    (by decide) (by decide) (by decide) (by decide) (by decide)
  refine ⟨h.1, ?_⟩
  have h2 := h.2.2
  rw [show queueRedo (gcmd 0).Queue (gcmd 0).ConsumerGroup = queueRedo "q" "g" from rfl]
    at h2
  rw [h2]
  decide

/-- C10 (amended): for an event whose score in each of redo, in-progress-by-id
and done is at most now: the now-guarded Branch-1/Branch-2 selects on those
collections never produce it (whatever the accumulator), any entry it has in
redo survives the whole QGet plan (the only RemoveFrom on redo acts on the
now-guarded Branch-1 selection), and — provided it is not also a member of
available, whose selects are not now-restricted — it never reaches the final
accumulator and is never returned by QGet. -/
theorem qget_now_guard (now : TS) (st : Store) (c : QGetCommand) (e : ID)
    (hpos : 0 < e)
    (hval : ∀ sc : TS,
      ((e, sc) ∈ st.sets (queueRedo c.Queue c.ConsumerGroup) ∨
       (e, sc) ∈ st.sets (queueInProgressByID c.Queue c.ConsumerGroup) ∨
       (e, sc) ∈ st.sets (queueDone c.Queue c.ConsumerGroup)) → sc ≤ now) :
    (∀ acc : List ID,
      e ∉ rangeSelect (st.sets (queueRedo c.Queue c.ConsumerGroup))
          (oldestSelect now) acc ∧
      e ∉ rangeSelect (st.sets (queueInProgressByID c.Queue c.ConsumerGroup))
          (mostRecentSelect now) acc ∧
      e ∉ rangeSelect (st.sets (queueDone c.Queue c.ConsumerGroup))
          (mostRecentSelect now) acc) ∧
    (∀ sc : TS, (e, sc) ∈ st.sets (queueRedo c.Queue c.ConsumerGroup) →
      (e, sc) ∈ (QGet now st c).2.2.sets (queueRedo c.Queue c.ConsumerGroup)) ∧
    ((∀ sc : TS, (e, sc) ∉ st.sets (queueAvailable c.Queue)) →
      e ∉ (runActions (qgetPlan c.Queue c.ConsumerGroup now c.AckDeadline) st.sets []).1 ∧
      (QGet now st c).1.ID ≠ e) := by
  have hnotsel : ∀ X : EventSet, (∀ sc : TS, (e, sc) ∈ st.sets X → sc ≤ now) →
      ∀ q : QueryEventRangeSelect, q.MinFromInput = false → q.Min = now →
      q.MinExcl = true → ∀ acc : List ID, e ∉ rangeSelect (st.sets X) q acc := by
    intro X hX q hmf hqmin hexcl acc hin
    obtain ⟨p, mn, hpz, hp1, hinr, hmni⟩ := rangeSelect_sound hin
    have hmn2 : mn = now := (hmni hmf).trans hqmin
    rw [hmn2, hexcl] at hinr
    have hlt : now < p.2 := inRange_excl_lt hinr
    obtain ⟨p1, p2⟩ := p
    simp only at hp1
    subst hp1
    have hlt2 : now < p2 := hlt
    have hle := hX p2 hpz
    exact absurd hlt2 (Nat.not_lt.mpr hle)
  have hq22 : (QGet now st c).2.2.sets =
      (runActions (qgetPlan c.Queue c.ConsumerGroup now c.AckDeadline) st.sets []).2 := by
    unfold QGet
    rcases hr : runActions (qgetPlan c.Queue c.ConsumerGroup now c.AckDeadline) st.sets []
      with ⟨acc, sets2⟩
    cases acc with
    | nil => rfl
    | cons x rest =>
      cases hp2 : st.payloads x
      · simp only [hp2]
      · simp only [hp2]
  refine ⟨?_, ?_, ?_⟩
  · intro acc
    exact ⟨hnotsel _ (fun sc h => hval sc (Or.inl h)) (oldestSelect now) rfl rfl rfl acc,
      hnotsel _ (fun sc h => hval sc (Or.inr (Or.inl h))) (mostRecentSelect now)
        rfl rfl rfl acc,
      hnotsel _ (fun sc h => hval sc (Or.inr (Or.inr h))) (mostRecentSelect now)
        rfl rfl rfl acc⟩
  · intro sc hsc
    have hacc1 : e ∉ rangeSelect (st.sets (queueRedo c.Queue c.ConsumerGroup))
        (oldestSelect now) [] :=
      hnotsel _ (fun sc0 h => hval sc0 (Or.inl h)) (oldestSelect now) rfl rfl rfl []
    rw [hq22]
    by_cases hd : c.AckDeadline = 0
    · have hfin : (runActions (qgetPlan c.Queue c.ConsumerGroup now c.AckDeadline)
          st.sets []).2 (queueRedo c.Queue c.ConsumerGroup) =
          applyRemoves (rangeSelect (st.sets (queueRedo c.Queue c.ConsumerGroup))
              (oldestSelect now) [])
            (st.sets (queueRedo c.Queue c.ConsumerGroup)) := by
        rw [hd, qgetPlan_no_deadline]
        show (runActions
            [ .addTo {} [queueDone c.Queue c.ConsumerGroup] none,
              .brk { IfInput := true },
              .sel {} { es := queueInProgressByID c.Queue c.ConsumerGroup, Union := false,
                        kind := .range (mostRecentSelect now) },
              .sel {} { es := queueDone c.Queue c.ConsumerGroup, Union := true,
                        kind := .range (mostRecentSelect now) },
              .sel {} { es := queueAvailable c.Queue, Union := false,
                        kind := .range { MinFromInput := true, MinExcl := true } },
              .addTo {} [queueDone c.Queue c.ConsumerGroup] none,
              .brk { IfInput := true },
              .sel { And := [ { IfEmpty := some (queueDone c.Queue c.ConsumerGroup) },
                              { IfEmpty := some (queueInProgressByID c.Queue c.ConsumerGroup) } ] }
                   { es := queueAvailable c.Queue, Union := false, kind := .posFirst } ]
            (removeAll st.sets [queueRedo c.Queue c.ConsumerGroup]
              (rangeSelect (st.sets (queueRedo c.Queue c.ConsumerGroup)) (oldestSelect now) []))
            (rangeSelect (st.sets (queueRedo c.Queue c.ConsumerGroup)) (oldestSelect now) [])).2
            (queueRedo c.Queue c.ConsumerGroup) =
          applyRemoves (rangeSelect (st.sets (queueRedo c.Queue c.ConsumerGroup))
              (oldestSelect now) [])
            (st.sets (queueRedo c.Queue c.ConsumerGroup))
        refine runActions_invariant
          (fun sets2 _ => sets2 (queueRedo c.Queue c.ConsumerGroup) =
            applyRemoves (rangeSelect (st.sets (queueRedo c.Queue c.ConsumerGroup))
                (oldestSelect now) [])
              (st.sets (queueRedo c.Queue c.ConsumerGroup)))
          _ _ _ (fun _ _ _ _ _ hP => hP) ?_ ?_ ?_
        · intro c0 ts sc0 hmem sets2 acc2 hP
          have hnotin : queueRedo c.Queue c.ConsumerGroup ∉ ts := by
            simp only [List.mem_cons, List.not_mem_nil, or_false] at hmem
            rcases hmem with h | h | h | h | h | h | h | h <;>
              first
              | (injection h with hc hts hsc0
                 subst hts
                 simp [queueRedo, queueDone])
              | (injection h)
          show addAll sets2 ts sc0 acc2 (queueRedo c.Queue c.ConsumerGroup) =
            applyRemoves (rangeSelect (st.sets (queueRedo c.Queue c.ConsumerGroup))
                (oldestSelect now) [])
              (st.sets (queueRedo c.Queue c.ConsumerGroup))
          rw [addAll_not_target hnotin]
          exact hP
        · intro c0 ts hmem sets2 acc2 hP
          simp at hmem
        · show removeAll st.sets [queueRedo c.Queue c.ConsumerGroup]
              (rangeSelect (st.sets (queueRedo c.Queue c.ConsumerGroup)) (oldestSelect now) [])
              (queueRedo c.Queue c.ConsumerGroup) =
            applyRemoves (rangeSelect (st.sets (queueRedo c.Queue c.ConsumerGroup))
                (oldestSelect now) [])
              (st.sets (queueRedo c.Queue c.ConsumerGroup))
          rw [removeAll_target (List.mem_singleton.mpr rfl)]
      rw [hfin]
      exact (mem_applyRemoves_of_not_mem hacc1).mpr hsc
    · have hfin : (runActions (qgetPlan c.Queue c.ConsumerGroup now c.AckDeadline)
          st.sets []).2 (queueRedo c.Queue c.ConsumerGroup) =
          applyRemoves (rangeSelect (st.sets (queueRedo c.Queue c.ConsumerGroup))
              (oldestSelect now) [])
            (st.sets (queueRedo c.Queue c.ConsumerGroup)) := by
        rw [qgetPlan_deadline c.Queue c.ConsumerGroup now c.AckDeadline hd]
        show (runActions
            [ .addTo {} [queueInProgressByID c.Queue c.ConsumerGroup] none,
              .addTo {} [queueInProgressByAck c.Queue c.ConsumerGroup] (some c.AckDeadline),
              .brk { IfInput := true },
              .sel {} { es := queueInProgressByID c.Queue c.ConsumerGroup, Union := false,
                        kind := .range (mostRecentSelect now) },
              .sel {} { es := queueDone c.Queue c.ConsumerGroup, Union := true,
                        kind := .range (mostRecentSelect now) },
              .sel {} { es := queueAvailable c.Queue, Union := false,
                        kind := .range { MinFromInput := true, MinExcl := true } },
              .addTo {} [queueInProgressByID c.Queue c.ConsumerGroup] none,
              .addTo {} [queueInProgressByAck c.Queue c.ConsumerGroup] (some c.AckDeadline),
              .brk { IfInput := true },
              .sel { And := [ { IfEmpty := some (queueDone c.Queue c.ConsumerGroup) },
                              { IfEmpty := some (queueInProgressByID c.Queue c.ConsumerGroup) } ] }
                   { es := queueAvailable c.Queue, Union := false, kind := .posFirst } ]
            (removeAll st.sets [queueRedo c.Queue c.ConsumerGroup]
              (rangeSelect (st.sets (queueRedo c.Queue c.ConsumerGroup)) (oldestSelect now) []))
            (rangeSelect (st.sets (queueRedo c.Queue c.ConsumerGroup)) (oldestSelect now) [])).2
            (queueRedo c.Queue c.ConsumerGroup) =
          applyRemoves (rangeSelect (st.sets (queueRedo c.Queue c.ConsumerGroup))
              (oldestSelect now) [])
            (st.sets (queueRedo c.Queue c.ConsumerGroup))
        refine runActions_invariant
          (fun sets2 _ => sets2 (queueRedo c.Queue c.ConsumerGroup) =
            applyRemoves (rangeSelect (st.sets (queueRedo c.Queue c.ConsumerGroup))
                (oldestSelect now) [])
              (st.sets (queueRedo c.Queue c.ConsumerGroup)))
          _ _ _ (fun _ _ _ _ _ hP => hP) ?_ ?_ ?_
        · intro c0 ts sc0 hmem sets2 acc2 hP
          have hnotin : queueRedo c.Queue c.ConsumerGroup ∉ ts := by
            simp only [List.mem_cons, List.not_mem_nil, or_false] at hmem
            rcases hmem with h | h | h | h | h | h | h | h | h | h <;>
              first
              | (injection h with hc hts hsc0
                 subst hts
                 simp [queueRedo, queueInProgressByID, queueInProgressByAck])
              | (injection h)
          show addAll sets2 ts sc0 acc2 (queueRedo c.Queue c.ConsumerGroup) =
            applyRemoves (rangeSelect (st.sets (queueRedo c.Queue c.ConsumerGroup))
                (oldestSelect now) [])
              (st.sets (queueRedo c.Queue c.ConsumerGroup))
          rw [addAll_not_target hnotin]
          exact hP
        · intro c0 ts hmem sets2 acc2 hP
          simp at hmem
        · show removeAll st.sets [queueRedo c.Queue c.ConsumerGroup]
              (rangeSelect (st.sets (queueRedo c.Queue c.ConsumerGroup)) (oldestSelect now) [])
              (queueRedo c.Queue c.ConsumerGroup) =
            applyRemoves (rangeSelect (st.sets (queueRedo c.Queue c.ConsumerGroup))
                (oldestSelect now) [])
              (st.sets (queueRedo c.Queue c.ConsumerGroup))
          rw [removeAll_target (List.mem_singleton.mpr rfl)]
      rw [hfin]
      exact (mem_applyRemoves_of_not_mem hacc1).mpr hsc
  · intro hav
    have hsel5 : ∀ (c0 : QueryConditional) (s0 : QuerySelector),
        QueryAction.sel c0 s0 ∈ qgetPlan c.Queue c.ConsumerGroup now c.AckDeadline →
        s0 = { es := queueRedo c.Queue c.ConsumerGroup, Union := false,
               kind := .range (oldestSelect now) } ∨
        s0 = { es := queueInProgressByID c.Queue c.ConsumerGroup, Union := false,
               kind := .range (mostRecentSelect now) } ∨
        s0 = { es := queueDone c.Queue c.ConsumerGroup, Union := true,
               kind := .range (mostRecentSelect now) } ∨
        s0 = { es := queueAvailable c.Queue, Union := false,
               kind := .range { MinFromInput := true, MinExcl := true } } ∨
        s0 = { es := queueAvailable c.Queue, Union := false, kind := .posFirst } := by
      intro c0 s0 hmem
      by_cases hd : c.AckDeadline = 0
      · rw [hd, qgetPlan_no_deadline] at hmem
        simp at hmem
        rcases hmem with ⟨-, rfl⟩ | ⟨-, rfl⟩ | ⟨-, rfl⟩ | ⟨-, rfl⟩ | ⟨-, rfl⟩
        · exact Or.inl rfl
        · exact Or.inr (Or.inl rfl)
        · exact Or.inr (Or.inr (Or.inl rfl))
        · exact Or.inr (Or.inr (Or.inr (Or.inl rfl)))
        · exact Or.inr (Or.inr (Or.inr (Or.inr rfl)))
      · rw [qgetPlan_deadline c.Queue c.ConsumerGroup now c.AckDeadline hd] at hmem
        simp at hmem
        rcases hmem with ⟨-, rfl⟩ | ⟨-, rfl⟩ | ⟨-, rfl⟩ | ⟨-, rfl⟩ | ⟨-, rfl⟩
        · exact Or.inl rfl
        · exact Or.inr (Or.inl rfl)
        · exact Or.inr (Or.inr (Or.inl rfl))
        · exact Or.inr (Or.inr (Or.inr (Or.inl rfl)))
        · exact Or.inr (Or.inr (Or.inr (Or.inr rfl)))
    have hsafe : ∀ s0 : QuerySelector,
        (s0 = { es := queueRedo c.Queue c.ConsumerGroup, Union := false,
                kind := .range (oldestSelect now) } ∨
         s0 = { es := queueInProgressByID c.Queue c.ConsumerGroup, Union := false,
                kind := .range (mostRecentSelect now) } ∨
         s0 = { es := queueDone c.Queue c.ConsumerGroup, Union := true,
                kind := .range (mostRecentSelect now) } ∨
         s0 = { es := queueAvailable c.Queue, Union := false,
                kind := .range { MinFromInput := true, MinExcl := true } } ∨
         s0 = { es := queueAvailable c.Queue, Union := false, kind := .posFirst }) →
        ∀ (sets2 : Sets) (acc2 : List ID), e ∉ acc2 →
        (∀ (n : EventSet) (sc : TS), ((e, sc) ∈ sets2 n ↔ (e, sc) ∈ st.sets n)) →
        e ∉ applySelector sets2 acc2 s0 := by
      rintro s0 (rfl | rfl | rfl | rfl | rfl) sets2 acc2 hacc hiff
      · intro hin
        simp [applySelector] at hin
        obtain ⟨p, mn, hpz, hp1, hinr, hmni⟩ := rangeSelect_sound hin
        have hmn2 : mn = now := (hmni rfl).trans rfl
        rw [hmn2] at hinr
        have hlt : now < p.2 := inRange_excl_lt hinr
        obtain ⟨p1, p2⟩ := p
        simp only at hp1
        subst hp1
        have hlt2 : now < p2 := hlt
        have hle := hval p2 (Or.inl ((hiff _ p2).mp hpz))
        exact absurd hlt2 (Nat.not_lt.mpr hle)
      · intro hin
        simp [applySelector] at hin
        obtain ⟨p, mn, hpz, hp1, hinr, hmni⟩ := rangeSelect_sound hin
        have hmn2 : mn = now := (hmni rfl).trans rfl
        rw [hmn2] at hinr
        have hlt : now < p.2 := inRange_excl_lt hinr
        obtain ⟨p1, p2⟩ := p
        simp only at hp1
        subst hp1
        have hlt2 : now < p2 := hlt
        have hle := hval p2 (Or.inr (Or.inl ((hiff _ p2).mp hpz)))
        exact absurd hlt2 (Nat.not_lt.mpr hle)
      · intro hin
        simp [applySelector] at hin
        rcases hin with hin | hin
        · exact hacc hin
        · obtain ⟨p, mn, hpz, hp1, hinr, hmni⟩ := rangeSelect_sound hin
          have hmn2 : mn = now := (hmni rfl).trans rfl
          rw [hmn2] at hinr
          have hlt : now < p.2 := inRange_excl_lt hinr
          obtain ⟨p1, p2⟩ := p
          simp only at hp1
          subst hp1
          have hlt2 : now < p2 := hlt
          have hle := hval p2 (Or.inr (Or.inr ((hiff _ p2).mp hpz)))
          exact absurd hlt2 (Nat.not_lt.mpr hle)
      · intro hin
        simp [applySelector] at hin
        obtain ⟨p, mn, hpz, hp1, hinr, hmni⟩ := rangeSelect_sound hin
        obtain ⟨p1, p2⟩ := p
        simp only at hp1
        subst hp1
        exact hav p2 ((hiff _ p2).mp hpz)
      · intro hin
        simp [applySelector] at hin
        obtain ⟨p, hpz, hp1⟩ := posFirst_sound hin
        obtain ⟨p1, p2⟩ := p
        simp only at hp1
        subst hp1
        exact hav p2 ((hiff _ p2).mp hpz)
    have hinv := runActions_invariant
      (fun sets2 acc2 => e ∉ acc2 ∧
        ∀ (n : EventSet) (sc : TS), ((e, sc) ∈ sets2 n ↔ (e, sc) ∈ st.sets n))
      (qgetPlan c.Queue c.ConsumerGroup now c.AckDeadline) st.sets []
      (fun c0 s0 hmem sets2 acc2 hP =>
        ⟨hsafe s0 (hsel5 c0 s0 hmem) sets2 acc2 hP.1 hP.2, hP.2⟩)
      (by
        intro c0 ts sc hmem sets2 acc2 hP
        refine ⟨hP.1, ?_⟩
        intro n sc0
        by_cases hn : n ∈ ts
        · rw [addAll_target hn, mem_applyAdds_of_not_mem hP.1]
          exact hP.2 n sc0
        · rw [addAll_not_target hn]
          exact hP.2 n sc0)
      (by
        intro c0 ts hmem sets2 acc2 hP
        refine ⟨hP.1, ?_⟩
        intro n sc0
        by_cases hn : n ∈ ts
        · rw [removeAll_target hn, mem_applyRemoves_of_not_mem hP.1]
          exact hP.2 n sc0
        · rw [removeAll_not_target hn]
          exact hP.2 n sc0)
      ⟨List.not_mem_nil e, fun n sc => Iff.rfl⟩
    rcases hr : runActions (qgetPlan c.Queue c.ConsumerGroup now c.AckDeadline) st.sets []
      with ⟨acc, sets2⟩
    rw [hr] at hinv
    obtain ⟨hacc, hiff⟩ := hinv
    refine ⟨hacc, ?_⟩
    unfold QGet
    rw [hr]
    cases acc with
    | nil =>
      show (0 : Nat) ≠ e
      exact Nat.ne_of_lt hpos
    | cons x rest =>
      have hxe : x ≠ e := fun h => hacc (h ▸ List.mem_cons_self x rest)
      cases hp2 : st.payloads x
      · simp only [hp2]
        show (0 : Nat) ≠ e
        exact Nat.ne_of_lt hpos
      · simp only [hp2]
        exact hxe

theorem qget_now_guard_witness :
    2 ∉ rangeSelect (stC10w.sets (queueRedo "q" "g")) (oldestSelect 10) [] ∧
    (2, 2) ∈ (QGet 10 stC10w (gcmd 0)).2.2.sets (queueRedo "q" "g") ∧
    (QGet 10 stC10w (gcmd 0)).1.ID ≠ 2 := by
  have e1 : stC10w.sets (queueRedo (gcmd 0).Queue (gcmd 0).ConsumerGroup) = [(2, 2)] := by
    decide
  have e2 : stC10w.sets
      (queueInProgressByID (gcmd 0).Queue (gcmd 0).ConsumerGroup) = [] := by decide
  have e3 : stC10w.sets (queueDone (gcmd 0).Queue (gcmd 0).ConsumerGroup) = [(3, 3)] := by
    decide
  have e4 : stC10w.sets (queueAvailable (gcmd 0).Queue) = [(9, 9)] := by decide
  have h := qget_now_guard 10 stC10w (gcmd 0) 2 (by decide)
    (by
      intro sc hc
      rw [e1, e2, e3] at hc
      rcases hc with hc | hc | hc
      · have h3 : sc = 2 := congrArg Prod.snd (List.mem_singleton.mp hc)
        subst h3
        decide
      · exact absurd hc (List.not_mem_nil _)
      · have h4 : (2 : ID) = 3 := congrArg Prod.fst (List.mem_singleton.mp hc)
        exact absurd h4 (by decide))
  have hava : ∀ sc : TS, ((2 : ID), sc) ∉ stC10w.sets (queueAvailable (gcmd 0).Queue) := by
    intro sc hc
    rw [e4] at hc
    have h4 : (2 : ID) = 9 := congrArg Prod.fst (List.mem_singleton.mp hc)
    exact absurd h4 (by decide)
  exact ⟨(h.1 []).1, h.2.1 2 (by decide), (h.2.2 hava).2⟩

end Peel
